import Mathlib

/-!
Shallow embedding of the symbolic-algebra engine of this repository
(`src/symbolic.go`, the variant with a simplifier, and the two further
variants in `src/unnamed/part_000`, which add `sin`/`cos` nodes).

Go `float64` values are modelled exactly: finite values are rationals
(arithmetic on them is exact, abstracting IEEE rounding and overflow, which
no verified claim exercises), with dedicated values for negative zero, the
two infinities and NaN, and an `unrep` value standing for a float64 whose
exact value the rational model does not track (`unrep` arises only from
non-integer exponentiation and from `sin`/`cos` at nonzero arguments; in
every reachable use it stands for a finite value that is neither 0 nor 1).
The IEEE special-case ladder of Go's `math.Pow` and the sign of a zero
result of `+` and `*` are modelled faithfully.
-/

namespace Symbolic

/-- Model of a Go `float64` value (see the module docstring). -/
inductive F where
  | fin (q : ℚ)
  | negZero
  | inf
  | negInf
  | nan
  | unrep
  deriving DecidableEq

/-- Go float `==`, as used by the interface comparisons `a == ZERO` and
`a == ONE` in `symbolic.go`: IEEE equality, so `-0.0 == 0.0` is true and
NaN compares unequal to everything. `unrep` compares unequal to every
tested constant (reachable `unrep` values are never 0 or 1). -/
def feq : F → F → Bool
  | F.fin q, F.fin r => decide (q = r)
  | F.fin q, F.negZero => decide (q = 0)
  | F.negZero, F.fin r => decide (r = 0)
  | F.negZero, F.negZero => true
  | F.inf, F.inf => true
  | F.negInf, F.negInf => true
  | _, _ => false

/-- The value is one of the two IEEE zeros. -/
def isZeroF : F → Bool
  | F.fin q => decide (q = 0)
  | F.negZero => true
  | _ => false

/-- The value is NaN (Go `math.IsNaN`). -/
def isNaN : F → Bool
  | F.nan => true
  | _ => false

/-- Go float64 `+`. Finite sums are exact; IEEE rules for infinities and
NaN; a sum with an `unrep` operand is again untracked. The zero-sign rule
of round-to-nearest is modelled: a zero sum is `-0` only when both addends
are `-0`. -/
def fadd : F → F → F
  | F.nan, _ => F.nan
  | _, F.nan => F.nan
  | F.inf, F.negInf => F.nan
  | F.negInf, F.inf => F.nan
  | F.inf, _ => F.inf
  | _, F.inf => F.inf
  | F.negInf, _ => F.negInf
  | _, F.negInf => F.negInf
  | F.unrep, _ => F.unrep
  | _, F.unrep => F.unrep
  | F.negZero, F.negZero => F.negZero
  | F.negZero, F.fin q => F.fin q
  | F.fin q, F.negZero => F.fin q
  | F.fin q, F.fin r => F.fin (q + r)

/-- Go float64 `*`. Finite products are exact; IEEE rules for infinities,
NaN and the sign of a zero product; a product with an `unrep` operand is
again untracked. -/
def fmul : F → F → F
  | F.nan, _ => F.nan
  | _, F.nan => F.nan
  | F.unrep, _ => F.unrep
  | _, F.unrep => F.unrep
  | F.inf, F.inf => F.inf
  | F.inf, F.negInf => F.negInf
  | F.negInf, F.inf => F.negInf
  | F.negInf, F.negInf => F.inf
  | F.inf, F.fin q => if q = 0 then F.nan else if q < 0 then F.negInf else F.inf
  | F.fin q, F.inf => if q = 0 then F.nan else if q < 0 then F.negInf else F.inf
  | F.inf, F.negZero => F.nan
  | F.negZero, F.inf => F.nan
  | F.negInf, F.fin q => if q = 0 then F.nan else if q < 0 then F.inf else F.negInf
  | F.fin q, F.negInf => if q = 0 then F.nan else if q < 0 then F.inf else F.negInf
  | F.negInf, F.negZero => F.nan
  | F.negZero, F.negInf => F.nan
  | F.negZero, F.negZero => F.fin 0
  | F.negZero, F.fin q => if q < 0 then F.fin 0 else F.negZero
  | F.fin q, F.negZero => if q < 0 then F.fin 0 else F.negZero
  | F.fin q, F.fin r =>
      if q * r = 0 then (if (decide (q < 0)) = (decide (r < 0)) then F.fin 0 else F.negZero)
      else F.fin (q * r)

/-- The rational is an odd integer (Go `math.pow`'s `isOddInt`). -/
def oddInt (r : ℚ) : Bool :=
  decide (r.den = 1) && decide (r.num % 2 ≠ 0)

/-- Absolute value strictly below one (the `Abs(x) < 1` test of Go
`math.Pow`'s infinite-exponent case); only definite values reach it. -/
def absLt1 : F → Bool
  | F.fin q => decide (|q| < 1)
  | F.negZero => true
  | _ => false

/-- Go `math.Pow` with base `±0` (`negSign` true for `-0`) and exponent
`y` that is neither zero nor one: `Pow(±0, y<0 odd int) = ±Inf`,
`Pow(±0, y<0 otherwise) = +Inf`, `Pow(±0, y>0 odd int) = ±0`,
`Pow(±0, y>0 otherwise) = +0`, `Pow(±0, -Inf) = +Inf`,
`Pow(±0, +Inf) = +0`. The `negZero`/`nan` exponent rows are unreachable
(the caller has already dispatched zero and NaN exponents). -/
def powZeroBase (negSign : Bool) (y : F) : F :=
  match y with
  | F.fin r =>
      if r < 0 then (if oddInt r then (if negSign then F.negInf else F.inf) else F.inf)
      else if oddInt r then (if negSign then F.negZero else F.fin 0)
      else F.fin 0
  | F.negZero => F.fin 1
  | F.inf => F.fin 0
  | F.negInf => F.inf
  | F.nan => F.nan
  | F.unrep => F.unrep

/-- Go `math.Pow`, following the special-case ladder of its source:
`y == 0 || x == 1` gives 1; `y == 1` gives `x`; NaN operands give NaN;
then the zero-base, infinite-exponent and infinite-base cases; finally the
general finite case: exact rational power for integer exponents, NaN for a
negative base with non-integer exponent, and an untracked positive real
(`unrep`) for a positive base with non-integer exponent. The trailing
catch-all rows are unreachable. -/
def fpow (x y : F) : F :=
  if feq y (F.fin 0) || feq x (F.fin 1) then F.fin 1
  else if feq y (F.fin 1) then x
  else if isNaN x || isNaN y then F.nan
  else if feq x (F.fin 0) then powZeroBase (decide (x = F.negZero)) y
  else
    match x, y with
    | _, F.unrep => F.unrep
    | F.unrep, _ => F.unrep
    | x, F.inf => if feq x (F.fin (-1)) then F.fin 1 else if absLt1 x then F.fin 0 else F.inf
    | x, F.negInf => if feq x (F.fin (-1)) then F.fin 1 else if absLt1 x then F.inf else F.fin 0
    | F.inf, F.fin r => if r < 0 then F.fin 0 else F.inf
    | F.negInf, F.fin r => powZeroBase true (F.fin (-r))
    | F.fin q, F.fin r =>
        if r.den = 1 then F.fin (q ^ r.num)
        else if q < 0 then F.nan
        else F.unrep
    | _, _ => F.nan

/-- Go `math.Sin`: exact at `±0` (`Sin(±0) = ±0`), NaN at `±Inf` and NaN,
untracked (irrational) at nonzero finite arguments. -/
def fsin : F → F
  | F.fin q => if q = 0 then F.fin 0 else F.unrep
  | F.negZero => F.negZero
  | F.inf => F.nan
  | F.negInf => F.nan
  | F.nan => F.nan
  | F.unrep => F.unrep

/-- Go `math.Cos`: exact at `±0` (`Cos(±0) = 1`), NaN at `±Inf` and NaN,
untracked (irrational) at nonzero finite arguments. -/
def fcos : F → F
  | F.fin q => if q = 0 then F.fin 1 else F.unrep
  | F.negZero => F.fin 1
  | F.inf => F.nan
  | F.negInf => F.nan
  | F.nan => F.nan
  | F.unrep => F.unrep

/-- The expression tree of `src/symbolic.go` (the simplifier variant):
`constant`, `variable`, `sum`, `product` and `power` nodes. The Go
`variable` struct carries only a name, so a variable is modelled by its
name; `var` is used because `variable` is a Lean keyword. -/
inductive Expr where
  | const (value : F)
  | var (name : String)
  | sum (a b : Expr)
  | product (a b : Expr)
  | power (base exponent : Expr)
  deriving DecidableEq

/-- Go's interface comparison `e == constant{c}` (as in `a == ZERO` /
`a == ONE` in the simplifier): true exactly when the dynamic type is
`constant` and the values are float-equal. -/
def constEq (e : Expr) (c : F) : Bool :=
  match e with
  | Expr.const v => feq v c
  | _ => false

/-- A binding context: Go's `map[string]float64`, modelled as an
association list. -/
abbrev Bindings := List (String × F)

/-- Go map indexing `vals[name]`: the first entry with the name, or the
float64 zero value when the name is absent. -/
def lookupB (vals : Bindings) (n : String) : F :=
  match vals.find? (fun p => p.1 == n) with
  | some p => p.2
  | none => F.fin 0

/-- `evaluate` of `src/symbolic.go`: constant value; map lookup for a
variable; `+`, `*` and `math.Pow` on recursively evaluated children. -/
def evaluate : Expr → Bindings → F
  | Expr.const v, _ => v
  | Expr.var n, vals => lookupB vals n
  | Expr.sum a b, vals => fadd (evaluate a vals) (evaluate b vals)
  | Expr.product a b, vals => fmul (evaluate a vals) (evaluate b vals)
  | Expr.power b e, vals => fpow (evaluate b vals) (evaluate e vals)

/-- `derivative` of `src/symbolic.go` (`v` is the variable's name):
constants to `zero`; a variable to `one` or `zero` by name equality; the
sum, product and power rules exactly as written in the source
(`power.derivative` treats the exponent as constant). -/
def derivative : Expr → String → Expr
  | Expr.const _, _ => Expr.const (F.fin 0)
  | Expr.var n, v => if v = n then Expr.const (F.fin 1) else Expr.const (F.fin 0)
  | Expr.sum a b, v => Expr.sum (derivative a v) (derivative b v)
  | Expr.product a b, v =>
      Expr.sum (Expr.product (derivative a v) b) (Expr.product a (derivative b v))
  | Expr.power b e, v =>
      Expr.product e (Expr.product (derivative b v)
        (Expr.power b (Expr.sum e (Expr.const (F.fin (-1))))))

/-- Body of `sum.simplify` after both children have been simplified
(`ZERO = constant{0.0}`): drop a zero operand, fold two constants, else
rebuild the sum. -/
def simplifySum (a b : Expr) : Expr :=
  if constEq a (F.fin 0) then b
  else if constEq b (F.fin 0) then a
  else
    match a, b with
    | Expr.const av, Expr.const bv => Expr.const (fadd av bv)
    | _, _ => Expr.sum a b

/-- Body of `product.simplify` after both children have been simplified:
return the zero operand itself, drop a one operand, fold two constants,
else rebuild the product. -/
def simplifyProduct (a b : Expr) : Expr :=
  if constEq a (F.fin 0) then a
  else if constEq b (F.fin 0) then b
  else if constEq a (F.fin 1) then b
  else if constEq b (F.fin 1) then a
  else
    match a, b with
    | Expr.const av, Expr.const bv => Expr.const (fmul av bv)
    | _, _ => Expr.product a b

/-- Body of `power.simplify` after base and exponent have been
simplified: exponent zero gives `ONE`; exponent one gives the base; a
zero or one base is returned as is (before the constant-folding check);
two constants fold through `math.Pow`; else rebuild the power. -/
def simplifyPower (base exponent : Expr) : Expr :=
  if constEq exponent (F.fin 0) then Expr.const (F.fin 1)
  else if constEq exponent (F.fin 1) then base
  else if constEq base (F.fin 0) || constEq base (F.fin 1) then base
  else
    match base, exponent with
    | Expr.const bv, Expr.const ev => Expr.const (fpow bv ev)
    | _, _ => Expr.power base exponent

/-- `simplify` of `src/symbolic.go`: constants and variables are fixed
points; composite nodes simplify their children first and then apply the
local rewrite of the matching `simplify*` body. -/
def simplify : Expr → Expr
  | Expr.const v => Expr.const v
  | Expr.var n => Expr.var n
  | Expr.sum a b => simplifySum (simplify a) (simplify b)
  | Expr.product a b => simplifyProduct (simplify a) (simplify b)
  | Expr.power b e => simplifyPower (simplify b) (simplify e)

/-- Fractional decimal digits of `q ∈ [0, 1)`, with fuel (every float64
value is a dyadic rational, whose expansion terminates well inside the
fuel used below). -/
def fracDigits : Nat → ℚ → String
  | 0, _ => ""
  | Nat.succ fuel, q =>
      if q = 0 then ""
      else
        let q10 := q * 10
        let d : Int := q10.num / (q10.den : Int)
        toString d ++ fracDigits fuel (q10 - (d : ℚ))

/-- Decimal rendering of a non-integral rational. -/
def formatDec (q : ℚ) : String :=
  let s := if q < 0 then "-" else ""
  let a := |q|
  let i : Int := a.num / (a.den : Int)
  s ++ toString i ++ "." ++ fracDigits 1200 (a - (i : ℚ))

/-- Go's `fmt.Sprintf("%v", value)` on a float64, to the extent the
claims exercise it: integral values print with no decimal point (`"1"`,
`"0"`, `"-1"`), `-0.0` prints `"-0"`, infinities print `"+Inf"`/`"-Inf"`,
NaN prints `"NaN"`; other finite values print their decimal expansion
(Go prints the shortest round-tripping form; the two agree on the short
dyadic literals appearing in this repository and no claim depends on the
difference). An `unrep` value has no digits to print. -/
def formatF : F → String
  | F.fin q => if q.den = 1 then toString q.num else formatDec q
  | F.negZero => "-0"
  | F.inf => "+Inf"
  | F.negInf => "-Inf"
  | F.nan => "NaN"
  | F.unrep => "?"

/-- `String()` of `src/symbolic.go`: `constant` prints its value,
`variable` its name, `sum` as `(a + b)`, `product` as `(a * b)` (spaces
around the operator, from `"(%v + %v)"` / `"(%v * %v)"`), `power` as
`base^exponent`. -/
def render : Expr → String
  | Expr.const v => formatF v
  | Expr.var n => n
  | Expr.sum a b => "(" ++ render a ++ " + " ++ render b ++ ")"
  | Expr.product a b => "(" ++ render a ++ " * " ++ render b ++ ")"
  | Expr.power b e => render b ++ "^" ++ render e

/-- The expression tree of the two programs in `src/unnamed/part_000`:
the five arithmetic variants plus `sin` and `cos`. -/
inductive TExpr where
  | const (value : F)
  | var (name : String)
  | sum (a b : TExpr)
  | product (a b : TExpr)
  | power (base exponent : TExpr)
  | sin (value : TExpr)
  | cos (value : TExpr)
  deriving DecidableEq

/-- `negate` of `src/unnamed/part_000`: `product{e, negativeOne}`. -/
def negateT (e : TExpr) : TExpr :=
  TExpr.product e (TExpr.const (F.fin (-1)))

/-- `evaluate` of `src/unnamed/part_000`: as in `symbolic.go`, plus
`math.Sin` / `math.Cos` on the recursively evaluated argument. -/
def evaluateT : TExpr → Bindings → F
  | TExpr.const v, _ => v
  | TExpr.var n, vals => lookupB vals n
  | TExpr.sum a b, vals => fadd (evaluateT a vals) (evaluateT b vals)
  | TExpr.product a b, vals => fmul (evaluateT a vals) (evaluateT b vals)
  | TExpr.power b e, vals => fpow (evaluateT b vals) (evaluateT e vals)
  | TExpr.sin x, vals => fsin (evaluateT x vals)
  | TExpr.cos x, vals => fcos (evaluateT x vals)

/-- `derivative` of `src/unnamed/part_000` (identical in both programs of
that file): the five arithmetic rules of `symbolic.go` plus the chain
rules `sin.derivative` and `cos.derivative`. -/
def derivativeT : TExpr → String → TExpr
  | TExpr.const _, _ => TExpr.const (F.fin 0)
  | TExpr.var n, v => if v = n then TExpr.const (F.fin 1) else TExpr.const (F.fin 0)
  | TExpr.sum a b, v => TExpr.sum (derivativeT a v) (derivativeT b v)
  | TExpr.product a b, v =>
      TExpr.sum (TExpr.product (derivativeT a v) b) (TExpr.product a (derivativeT b v))
  | TExpr.power b e, v =>
      TExpr.product e (TExpr.product (derivativeT b v)
        (TExpr.power b (TExpr.sum e (TExpr.const (F.fin (-1))))))
  | TExpr.sin x, v => TExpr.product (derivativeT x v) (TExpr.cos x)
  | TExpr.cos x, v => TExpr.product (negateT (derivativeT x v)) (TExpr.sin x)

/-- `String()` of the first program in `src/unnamed/part_000`: same
formats as `symbolic.go` (`"(%v + %v)"`, `"(%v * %v)"`), plus
`sin(arg)` / `cos(arg)`. -/
def renderT : TExpr → String
  | TExpr.const v => formatF v
  | TExpr.var n => n
  | TExpr.sum a b => "(" ++ renderT a ++ " + " ++ renderT b ++ ")"
  | TExpr.product a b => "(" ++ renderT a ++ " * " ++ renderT b ++ ")"
  | TExpr.power b e => renderT b ++ "^" ++ renderT e
  | TExpr.sin x => "sin(" ++ renderT x ++ ")"
  | TExpr.cos x => "cos(" ++ renderT x ++ ")"

/-- Go's default `%v` formatting of a node value of the second program
in `src/unnamed/part_000`. That program's interface method is the
unexported `string()`, and none of its node types implements
`fmt.Stringer` (an exported `String()`), so the `%v` verb never calls
`string()` on a child: it falls back to Go's default struct formatting,
which prints a struct as its fields between braces, separated by one
space. A string field prints plainly, a float64 field prints as `%v`
does, and an interface-typed child is again default-formatted. -/
def defaultFmtTc : TExpr → String
  | TExpr.const v => "\x7b" ++ formatF v ++ "\x7d"
  | TExpr.var n => "\x7b" ++ n ++ "\x7d"
  | TExpr.sum a b => "\x7b" ++ defaultFmtTc a ++ " " ++ defaultFmtTc b ++ "\x7d"
  | TExpr.product a b => "\x7b" ++ defaultFmtTc a ++ " " ++ defaultFmtTc b ++ "\x7d"
  | TExpr.power b e => "\x7b" ++ defaultFmtTc b ++ " " ++ defaultFmtTc e ++ "\x7d"
  | TExpr.sin x => "\x7b" ++ defaultFmtTc x ++ "\x7d"
  | TExpr.cos x => "\x7b" ++ defaultFmtTc x ++ "\x7d"

/-- `string()` of the second program in `src/unnamed/part_000`: the
format strings carry no spaces around `+`/`*` (`"(%v+%v)"`,
`"(%v*%v)"`), but because the node types implement only the unexported
`string()` and not `fmt.Stringer`, the `%v` verb default-formats the
children as brace-structs (`defaultFmtTc`) instead of rendering them
recursively. Only `constant` (whose `%v` argument is its float64 field)
and `variable` (which returns its name directly) print without braces. -/
def renderTc : TExpr → String
  | TExpr.const v => formatF v
  | TExpr.var n => n
  | TExpr.sum a b => "(" ++ defaultFmtTc a ++ "+" ++ defaultFmtTc b ++ ")"
  | TExpr.product a b => "(" ++ defaultFmtTc a ++ "*" ++ defaultFmtTc b ++ ")"
  | TExpr.power b e => defaultFmtTc b ++ "^" ++ defaultFmtTc e
  | TExpr.sin x => "sin(" ++ defaultFmtTc x ++ ")"
  | TExpr.cos x => "cos(" ++ defaultFmtTc x ++ ")"

/-- A value the rational model tracks exactly and that is finite: a
rational or negative zero (not `inf`, `negInf`, `nan` or `unrep`). -/
def definiteB : F → Bool
  | F.fin _ => true
  | F.negZero => true
  | _ => false

/-- Collapse `-0` into `+0`; all other values are fixed. -/
def collapseZ : F → F
  | F.negZero => F.fin 0
  | v => v

/-- Equality of evaluated float64 values "within floating-point
tolerance": the model computes exactly, so this is value equality up to
the sign of zero. -/
def veq (x y : F) : Prop :=
  collapseZ x = collapseZ y

instance (x y : F) : Decidable (veq x y) := by
  unfold veq
  exact inferInstance

/-- Evaluation of a tree under a binding context is tame: every leaf and
every intermediate value is definite (finite and exactly tracked), and
every `power` node has a nonzero base and a definite value. Sums and
products of definite values are always definite, so only `power` nodes
need side conditions. -/
inductive GoodEval : Expr → Bindings → Prop where
  | const (v : F) (vals : Bindings) :
      definiteB v = true → GoodEval (Expr.const v) vals
  | var (n : String) (vals : Bindings) :
      definiteB (lookupB vals n) = true → GoodEval (Expr.var n) vals
  | sum (a b : Expr) (vals : Bindings) :
      GoodEval a vals → GoodEval b vals → GoodEval (Expr.sum a b) vals
  | product (a b : Expr) (vals : Bindings) :
      GoodEval a vals → GoodEval b vals → GoodEval (Expr.product a b) vals
  | power (b e : Expr) (vals : Bindings) :
      GoodEval b vals → GoodEval e vals →
      isZeroF (evaluate b vals) = false →
      definiteB (evaluate (Expr.power b e) vals) = true →
      GoodEval (Expr.power b e) vals

/-- C3: for every base `b`, exponent `e` and variable `v`, the power
derivative is exactly
`Product(e, Product(d(b), Power(b, Sum(e, Constant(-1)))))`, in
`symbolic.go` and in `part_000` alike; the rule is the same whether or
not `e` mentions `v`, and no `ln(base)` term is ever added. -/
theorem C3_power_derivative (b e : Expr) (tb te : TExpr) (v : String) :
    derivative (Expr.power b e) v =
      Expr.product e (Expr.product (derivative b v)
        (Expr.power b (Expr.sum e (Expr.const (F.fin (-1)))))) ∧
    derivativeT (TExpr.power tb te) v =
      TExpr.product te (TExpr.product (derivativeT tb v)
        (TExpr.power tb (TExpr.sum te (TExpr.const (F.fin (-1)))))) :=
  ⟨rfl, rfl⟩

/-- C5: evaluating a `variable` whose name is absent from the binding
context returns the float64 zero value `0.0` and signals no error (both
engines); in particular `evaluate(Variable("unbound"), {}) = 0.0`. -/
theorem C5_unbound_var_zero (vals : Bindings) (n : String)
    (h : vals.find? (fun p => p.1 == n) = none) :
    evaluate (Expr.var n) vals = F.fin 0 ∧
    evaluateT (TExpr.var n) vals = F.fin 0 ∧
    evaluate (Expr.var "unbound") [] = F.fin 0 := by
  refine ⟨?_, ?_, rfl⟩ <;> simp [evaluate, evaluateT, lookupB, h]

/-- Witness for C5 at a nonempty context that does not bind "unbound". -/
theorem C5_unbound_var_zero_witness :
    ([("x", F.fin 1)] : Bindings).find? (fun p => p.1 == "unbound") = none ∧
    evaluate (Expr.var "unbound") [("x", F.fin 1)] = F.fin 0 :=
  ⟨by decide, (C5_unbound_var_zero [("x", F.fin 1)] "unbound" (by decide)).1⟩

/-- C7: in `part_000`, `sin.derivative` is exactly
`Product(d(x), Cos(x))` and `cos.derivative` is exactly
`Product(negate(d(x)), Sin(x))` with `negate(e) = Product(e, Constant(-1))`. -/
theorem C7_trig_chain_rule (x : TExpr) (v : String) :
    derivativeT (TExpr.sin x) v = TExpr.product (derivativeT x v) (TExpr.cos x) ∧
    derivativeT (TExpr.cos x) v =
      TExpr.product (negateT (derivativeT x v)) (TExpr.sin x) :=
  ⟨rfl, rfl⟩

/-- C8: the three identity eliminations:
`simplify(Sum(Constant(0), Variable("x")))` renders as `"x"`,
`simplify(Product(Constant(1), Variable("x")))` renders as `"x"`, and
`simplify(Power(Variable("x"), Constant(0)))` renders as `"1"`. -/
theorem C8_identity_eliminations :
    render (simplify (Expr.sum (Expr.const (F.fin 0)) (Expr.var "x"))) = "x" ∧
    render (simplify (Expr.product (Expr.const (F.fin 1)) (Expr.var "x"))) = "x" ∧
    render (simplify (Expr.power (Expr.var "x") (Expr.const (F.fin 0)))) = "1" := by
  refine ⟨?_, ?_, ?_⟩ <;> decide

/-- C9: the simplifier's zero test is IEEE float equality, under which
`-0.0 == 0.0`; hence a constant holding `-0.0` is treated as the zero
constant: `simplify(Sum(Constant(-0.0), e))` is `simplify(e)`, and
`simplify(Product(Constant(-0.0), e))` returns the `Constant(-0.0)`
operand itself. -/
theorem C9_negative_zero (e : Expr) :
    feq F.negZero (F.fin 0) = true ∧
    simplify (Expr.sum (Expr.const F.negZero) e) = simplify e ∧
    simplify (Expr.product (Expr.const F.negZero) e) = Expr.const F.negZero := by
  refine ⟨by decide, ?_, ?_⟩ <;> simp [simplify, simplifySum, simplifyProduct, constEq, feq]

/-- C10: at `0^0` the exponent-zero rewrite fires first and agrees with
evaluation: `simplify(Power(Constant(0), Constant(0))) = Constant(1)`,
and evaluation returns `1.0` under every binding context
(`math.Pow(0, 0) = 1`). -/
theorem C10_zero_pow_zero (vals : Bindings) :
    simplify (Expr.power (Expr.const (F.fin 0)) (Expr.const (F.fin 0))) =
      Expr.const (F.fin 1) ∧
    evaluate (Expr.power (Expr.const (F.fin 0)) (Expr.const (F.fin 0))) vals = F.fin 1 :=
  ⟨by decide, rfl⟩

/-- C6 counterexample: in `symbolic.go` (and in the first program of
`part_000`) `Sum(a, b)` does NOT render as `"(" + a + "+" + b + ")"`
with no other characters: at `a = Variable("x")`, `b = Variable("y")` the
rendering is `"(x + y)"`, with spaces around the operator. -/
theorem C6_render_counterexample :
    render (Expr.sum (Expr.var "x") (Expr.var "y")) ≠
      "(" ++ render (Expr.var "x") ++ "+" ++ render (Expr.var "y") ++ ")" := by
  decide

/-- C6 amended: `symbolic.go` and the first program of `part_000`
(whose node types implement `fmt.Stringer` through an exported
`String()`) render `Sum`/`Product` with spaces around the operator,
`"(a + b)"` and `"(a * b)"`, `Power` as `base^exponent` and `Sin`/`Cos`
as `sin(arg)`/`cos(arg)`, recursively and with no other characters. The
second program's `string()` omits the spaces, but its types implement
only the unexported `string()`, so `%v` default-formats the children as
brace-structs rather than rendering them: `Sum(Variable("x"),
Variable("y"))` prints an open parenthesis, `x` between braces, the
plus sign, `y` between braces and a close parenthesis — not `"(x+y)"`. -/
theorem C6_render_formats (a b : Expr) (x y : TExpr) :
    render (Expr.sum a b) = "(" ++ render a ++ " + " ++ render b ++ ")" ∧
    render (Expr.product a b) = "(" ++ render a ++ " * " ++ render b ++ ")" ∧
    render (Expr.power a b) = render a ++ "^" ++ render b ∧
    renderT (TExpr.sum x y) = "(" ++ renderT x ++ " + " ++ renderT y ++ ")" ∧
    renderT (TExpr.product x y) = "(" ++ renderT x ++ " * " ++ renderT y ++ ")" ∧
    renderT (TExpr.power x y) = renderT x ++ "^" ++ renderT y ∧
    renderT (TExpr.sin x) = "sin(" ++ renderT x ++ ")" ∧
    renderT (TExpr.cos x) = "cos(" ++ renderT x ++ ")" ∧
    renderTc (TExpr.sum x y) = "(" ++ defaultFmtTc x ++ "+" ++ defaultFmtTc y ++ ")" ∧
    renderTc (TExpr.product x y) = "(" ++ defaultFmtTc x ++ "*" ++ defaultFmtTc y ++ ")" ∧
    renderTc (TExpr.power x y) = defaultFmtTc x ++ "^" ++ defaultFmtTc y ∧
    renderTc (TExpr.sin x) = "sin(" ++ defaultFmtTc x ++ ")" ∧
    renderTc (TExpr.cos x) = "cos(" ++ defaultFmtTc x ++ ")" ∧
    renderTc (TExpr.sum (TExpr.var "x") (TExpr.var "y")) = "(\x7bx\x7d+\x7by\x7d)" ∧
    renderTc (TExpr.sum (TExpr.var "x") (TExpr.var "y")) ≠ "(x+y)" := by
  refine ⟨rfl, rfl, rfl, rfl, rfl, rfl, rfl, rfl, rfl, rfl, rfl, rfl, rfl,
    by decide, by decide⟩

/-- C4: the branch order of `power.simplify` (conditions are the code's
IEEE-equality tests against the `ZERO`/`ONE` constants): exponent zero
gives `Constant(1)`; otherwise exponent one gives the simplified base;
otherwise a zero-or-one base is returned as is; only then two constants
fold through `math.Pow`; otherwise the power is rebuilt unchanged. In
particular `Power(1, x)` collapses to `1` for any non-constant `x`, and
`Power(0, Constant(-1))` collapses to `0`. -/
theorem C4_power_branch_order (b e x : Expr) (hx : ∀ v, x ≠ Expr.const v) :
    (constEq (simplify e) (F.fin 0) = true →
      simplify (Expr.power b e) = Expr.const (F.fin 1)) ∧
    (constEq (simplify e) (F.fin 0) = false → constEq (simplify e) (F.fin 1) = true →
      simplify (Expr.power b e) = simplify b) ∧
    (constEq (simplify e) (F.fin 0) = false → constEq (simplify e) (F.fin 1) = false →
      (constEq (simplify b) (F.fin 0) = true ∨ constEq (simplify b) (F.fin 1) = true) →
      simplify (Expr.power b e) = simplify b) ∧
    (constEq (simplify e) (F.fin 0) = false → constEq (simplify e) (F.fin 1) = false →
      constEq (simplify b) (F.fin 0) = false → constEq (simplify b) (F.fin 1) = false →
      ∀ bv ev, simplify b = Expr.const bv → simplify e = Expr.const ev →
        simplify (Expr.power b e) = Expr.const (fpow bv ev)) ∧
    (constEq (simplify e) (F.fin 0) = false → constEq (simplify e) (F.fin 1) = false →
      constEq (simplify b) (F.fin 0) = false → constEq (simplify b) (F.fin 1) = false →
      ((∀ bv, simplify b ≠ Expr.const bv) ∨ (∀ ev, simplify e ≠ Expr.const ev)) →
        simplify (Expr.power b e) = Expr.power (simplify b) (simplify e)) ∧
    simplify (Expr.power (Expr.const (F.fin 1)) x) = Expr.const (F.fin 1) ∧
    simplify (Expr.power (Expr.const (F.fin 0)) (Expr.const (F.fin (-1)))) =
      Expr.const (F.fin 0) := by
  refine ⟨?_, ?_, ?_, ?_, ?_, ?_, by decide⟩
  · intro h1
    simp [simplify, simplifyPower, h1]
  · intro h1 h2
    simp [simplify, simplifyPower, h1, h2]
  · intro h1 h2 h3
    rcases h3 with h | h <;> simp [simplify, simplifyPower, h1, h2, h]
  · intro h1 h2 h3 h4 bv ev hb he
    rw [hb] at h3 h4
    rw [he] at h1 h2
    simp [simplify, simplifyPower, hb, he, h1, h2, h3, h4]
  · intro h1 h2 h3 h4 h5
    simp only [simplify, simplifyPower, h1, h2, h3, h4, Bool.or_self,
      Bool.false_eq_true, if_false]
    split
    · rename_i bv ev hb he
      rcases h5 with h | h
      · exact absurd hb (h bv)
      · exact absurd he (h ev)
    · rfl
  · show simplifyPower (Expr.const (F.fin 1)) (simplify x) = Expr.const (F.fin 1)
    unfold simplifyPower
    split_ifs with h1 h2 h3
    · rfl
    · rfl
    · rfl
    · exact absurd (by decide) h3

/-- Witness for C4: the exponent-zero branch at `Power(b, Constant(0))`,
with the non-constant side condition at `x = Variable("x")`. -/
theorem C4_power_branch_order_witness :
    (∀ v, Expr.var "x" ≠ Expr.const v) ∧
    simplify (Expr.power (Expr.var "b") (Expr.const (F.fin 0))) = Expr.const (F.fin 1) :=
  ⟨fun _ h => Expr.noConfusion h,
   (C4_power_branch_order (Expr.var "b") (Expr.const (F.fin 0)) (Expr.var "x")
      (fun _ h => Expr.noConfusion h)).1 (by decide)⟩

/-- The body of `sum.simplify` maps fixed points of `simplify` to fixed
points: every branch returns an already-simplified child or a constant. -/
theorem simplifySum_fix (a b : Expr) (ha : simplify a = a) (hb : simplify b = b) :
    simplify (simplifySum a b) = simplifySum a b := by
  unfold simplifySum
  split_ifs with h1 h2
  · exact hb
  · exact ha
  · split
    · rfl
    · rename_i hnc
      show simplifySum (simplify a) (simplify b) = Expr.sum a b
      rw [ha, hb]
      unfold simplifySum
      rw [if_neg h1, if_neg h2]
      split
      · rename_i av bv
        exact ((hnc av bv rfl rfl).elim)
      · rfl

/-- The body of `product.simplify` maps fixed points of `simplify` to
fixed points. -/
theorem simplifyProduct_fix (a b : Expr) (ha : simplify a = a) (hb : simplify b = b) :
    simplify (simplifyProduct a b) = simplifyProduct a b := by
  unfold simplifyProduct
  split_ifs with h1 h2 h3 h4
  · exact ha
  · exact hb
  · exact hb
  · exact ha
  · split
    · rfl
    · rename_i hnc
      show simplifyProduct (simplify a) (simplify b) = Expr.product a b
      rw [ha, hb]
      unfold simplifyProduct
      rw [if_neg h1, if_neg h2, if_neg h3, if_neg h4]
      split
      · rename_i av bv
        exact ((hnc av bv rfl rfl).elim)
      · rfl

/-- The body of `power.simplify` maps fixed points of `simplify` to
fixed points. -/
theorem simplifyPower_fix (b e : Expr) (hb : simplify b = b) (he : simplify e = e) :
    simplify (simplifyPower b e) = simplifyPower b e := by
  unfold simplifyPower
  split_ifs with h1 h2 h3
  · rfl
  · exact hb
  · exact hb
  · split
    · rfl
    · rename_i hnc
      show simplifyPower (simplify b) (simplify e) = Expr.power b e
      rw [hb, he]
      unfold simplifyPower
      rw [if_neg h1, if_neg h2, if_neg h3]
      split
      · rename_i bv ev
        exact ((hnc bv ev rfl rfl).elim)
      · rfl

/-- `simplify` is structurally idempotent: simplifying an
already-simplified tree returns it unchanged. -/
theorem simplify_fix (t : Expr) : simplify (simplify t) = simplify t := by
  induction t with
  | const v => rfl
  | var n => rfl
  | sum a b iha ihb => exact simplifySum_fix _ _ iha ihb
  | product a b iha ihb => exact simplifyProduct_fix _ _ iha ihb
  | power b e ihb ihe => exact simplifyPower_fix _ _ ihb ihe

/-- C2: simplify is idempotent up to rendering: for every tree over the
simplifier's variant set, `simplify(simplify(T))` renders to exactly the
same text as `simplify(T)` (it is in fact the same tree, by
`simplify_fix`). -/
theorem C2_simplify_idempotent (t : Expr) :
    render (simplify (simplify t)) = render (simplify t) :=
  congrArg render (simplify_fix t)

/-- The IEEE zero test holds exactly for the two zeros. -/
theorem isZeroF_iff (v : F) : isZeroF v = true ↔ v = F.fin 0 ∨ v = F.negZero := by
  cases v <;> simp [isZeroF]

/-- Float equality against `ZERO` is the IEEE zero test. -/
theorem feq_zero_iff (v : F) : feq v (F.fin 0) = true ↔ isZeroF v = true := by
  cases v <;> simp [feq, isZeroF]

/-- Float equality against `ONE` holds only for the rational one. -/
theorem feq_one_iff (v : F) : feq v (F.fin 1) = true ↔ v = F.fin 1 := by
  cases v <;> simp [feq]

/-- The code's `x == ZERO` holds exactly for constants carrying an IEEE
zero. -/
theorem constEq_zero_iff (x : Expr) :
    constEq x (F.fin 0) = true ↔ ∃ v, x = Expr.const v ∧ isZeroF v = true := by
  cases x <;> simp [constEq, feq_zero_iff]

/-- The code's `x == ONE` holds exactly for the constant one. -/
theorem constEq_one_iff (x : Expr) :
    constEq x (F.fin 1) = true ↔ x = Expr.const (F.fin 1) := by
  cases x <;> simp [constEq, feq_one_iff]

/-- A definite value is a rational or the negative zero. -/
theorem definite_cases {v : F} (h : definiteB v = true) :
    (∃ q, v = F.fin q) ∨ v = F.negZero := by
  cases v <;> simp_all [definiteB]

/-- `veq` is reflexive. -/
theorem veq_refl (x : F) : veq x x := rfl

/-- `veq` is symmetric. -/
theorem veq_symm {x y : F} (h : veq x y) : veq y x := h.symm

/-- `veq` is transitive. -/
theorem veq_trans {x y z : F} (h1 : veq x y) (h2 : veq y z) : veq x z := h1.trans h2

/-- Two `veq`-related values are equal or are both IEEE zeros. -/
theorem veq_cases {x y : F} (h : veq x y) :
    x = y ∨ (isZeroF x = true ∧ isZeroF y = true) := by
  cases x <;> cases y <;> simp_all [veq, collapseZ, isZeroF]

/-- `veq` transports the zero test. -/
theorem veq_zero {x y : F} (h : veq x y) (hx : isZeroF x = true) : isZeroF y = true := by
  rcases veq_cases h with rfl | ⟨_, h2⟩
  · exact hx
  · exact h2

/-- `veq`-related values are equal once one of them is not a zero. -/
theorem veq_nonzero_eq {x y : F} (hx : isZeroF x = false) (h : veq x y) : x = y := by
  rcases veq_cases h with rfl | ⟨h1, _⟩
  · rfl
  · rw [hx] at h1
    cases h1

/-- Any two IEEE zeros are `veq`-related. -/
theorem zeros_veq {x y : F} (hx : isZeroF x = true) (hy : isZeroF y = true) : veq x y := by
  rcases (isZeroF_iff x).mp hx with rfl | rfl <;>
    rcases (isZeroF_iff y).mp hy with rfl | rfl <;> rfl

/-- `veq` preserves definiteness. -/
theorem veq_definiteB {x y : F} (h : veq x y) : definiteB x = definiteB y := by
  rcases veq_cases h with rfl | ⟨h1, h2⟩
  · rfl
  · rcases (isZeroF_iff x).mp h1 with rfl | rfl <;>
      rcases (isZeroF_iff y).mp h2 with rfl | rfl <;> rfl

/-- Sums of definite values are definite (the exact model has no
overflow). -/
theorem fadd_definite {x y : F} (hx : definiteB x = true) (hy : definiteB y = true) :
    definiteB (fadd x y) = true := by
  rcases definite_cases hx with ⟨q, rfl⟩ | rfl <;>
    rcases definite_cases hy with ⟨r, rfl⟩ | rfl <;> simp [fadd, definiteB]

/-- Products of definite values are definite. -/
theorem fmul_definite {x y : F} (hx : definiteB x = true) (hy : definiteB y = true) :
    definiteB (fmul x y) = true := by
  rcases definite_cases hx with ⟨q, rfl⟩ | rfl <;>
    rcases definite_cases hy with ⟨r, rfl⟩ | rfl <;>
    simp only [fmul] <;> (try split_ifs) <;> simp [definiteB]

/-- Adding an IEEE zero on the left is the identity up to the sign of
zero. -/
theorem fadd_zero_left {x y : F} (hx : isZeroF x = true) (hy : definiteB y = true) :
    veq (fadd x y) y := by
  rcases (isZeroF_iff x).mp hx with rfl | rfl <;>
    rcases definite_cases hy with ⟨r, rfl⟩ | rfl <;> simp [fadd, veq, collapseZ]

/-- Adding an IEEE zero on the right is the identity up to the sign of
zero. -/
theorem fadd_zero_right {x y : F} (hy : isZeroF y = true) (hx : definiteB x = true) :
    veq (fadd x y) x := by
  rcases (isZeroF_iff y).mp hy with rfl | rfl <;>
    rcases definite_cases hx with ⟨q, rfl⟩ | rfl <;> simp [fadd, veq, collapseZ]

/-- Multiplying an IEEE zero by a definite value yields an IEEE zero. -/
theorem fmul_zero_left {x y : F} (hx : isZeroF x = true) (hy : definiteB y = true) :
    isZeroF (fmul x y) = true := by
  rcases (isZeroF_iff x).mp hx with rfl | rfl <;>
    rcases definite_cases hy with ⟨r, rfl⟩ | rfl <;>
    simp only [fmul] <;> (try split_ifs) <;> simp_all [isZeroF, zero_mul, mul_zero]

/-- Multiplying a definite value by an IEEE zero yields an IEEE zero. -/
theorem fmul_zero_right {x y : F} (hy : isZeroF y = true) (hx : definiteB x = true) :
    isZeroF (fmul x y) = true := by
  rcases (isZeroF_iff y).mp hy with rfl | rfl <;>
    rcases definite_cases hx with ⟨q, rfl⟩ | rfl <;>
    simp only [fmul] <;> (try split_ifs) <;> simp_all [isZeroF, zero_mul, mul_zero]

/-- `1 * y = y` for definite `y` (the Go float identity, sign of zero
included). -/
theorem fmul_one_left {y : F} (hy : definiteB y = true) : fmul (F.fin 1) y = y := by
  rcases definite_cases hy with ⟨r, rfl⟩ | rfl
  · by_cases hr : r = 0
    · subst hr
      norm_num [fmul]
    · simp [fmul, hr]
  · norm_num [fmul]

/-- `x * 1 = x` for definite `x`. -/
theorem fmul_one_right {x : F} (hx : definiteB x = true) : fmul x (F.fin 1) = x := by
  rcases definite_cases hx with ⟨q, rfl⟩ | rfl
  · by_cases hq : q = 0
    · subst hq
      norm_num [fmul]
    · simp [fmul, hq]
  · norm_num [fmul]

/-- Collapsing zero signs commutes with `fadd` on definite values. -/
theorem fadd_collapse {x y : F} (hx : definiteB x = true) (hy : definiteB y = true) :
    collapseZ (fadd x y) = collapseZ (fadd (collapseZ x) (collapseZ y)) := by
  rcases definite_cases hx with ⟨q, rfl⟩ | rfl <;>
    rcases definite_cases hy with ⟨r, rfl⟩ | rfl <;> simp [fadd, collapseZ]

/-- Collapsing zero signs commutes with `fmul` on definite values. -/
theorem fmul_collapse {x y : F} (hx : definiteB x = true) (hy : definiteB y = true) :
    collapseZ (fmul x y) = collapseZ (fmul (collapseZ x) (collapseZ y)) := by
  rcases definite_cases hx with ⟨q, rfl⟩ | rfl <;>
    rcases definite_cases hy with ⟨r, rfl⟩ | rfl <;>
    (first
      | rfl
      | (simp only [fmul, collapseZ, zero_mul, mul_zero]
         split_ifs <;> rfl))

/-- `fadd` respects `veq` on definite operands. -/
theorem fadd_congr {x y x' y' : F} (hx : definiteB x = true) (hy : definiteB y = true)
    (hx' : definiteB x' = true) (hy' : definiteB y' = true)
    (h1 : veq x x') (h2 : veq y y') : veq (fadd x y) (fadd x' y') := by
  unfold veq at h1 h2 ⊢
  rw [fadd_collapse hx hy, fadd_collapse hx' hy', h1, h2]

/-- `fmul` respects `veq` on definite operands. -/
theorem fmul_congr {x y x' y' : F} (hx : definiteB x = true) (hy : definiteB y = true)
    (hx' : definiteB x' = true) (hy' : definiteB y' = true)
    (h1 : veq x x') (h2 : veq y y') : veq (fmul x y) (fmul x' y') := by
  unfold veq at h1 h2 ⊢
  rw [fmul_collapse hx hy, fmul_collapse hx' hy', h1, h2]

/-- `Pow(x, ±0) = 1` for any `x` (first rule of Go `math.Pow`). -/
theorem fpow_zero_exp {x y : F} (hy : isZeroF y = true) : fpow x y = F.fin 1 := by
  unfold fpow
  rw [if_pos]
  rw [Bool.or_eq_true]
  exact Or.inl ((feq_zero_iff y).mpr hy)

/-- `Pow(1, y) = 1` for any `y`. -/
theorem fpow_one_base (y : F) : fpow (F.fin 1) y = F.fin 1 := by
  unfold fpow
  rw [if_pos]
  rw [Bool.or_eq_true]
  exact Or.inr (by simp [feq])

/-- `Pow(x, 1) = x` for any `x`. -/
theorem fpow_one_exp (x : F) : fpow x (F.fin 1) = x := by
  by_cases hx : feq x (F.fin 1) = true
  · rw [(feq_one_iff x).mp hx]
    exact fpow_one_base (F.fin 1)
  · rw [Bool.not_eq_true] at hx
    unfold fpow
    have h1 : (feq (F.fin 1) (F.fin 0) || feq x (F.fin 1)) = false := by
      rw [hx]
      simp [feq]
    rw [if_neg (by simp [h1]), if_pos (by simp [feq])]

/-- `fpow` does not see the sign of a zero exponent. -/
theorem fpow_congr_exp {x y y' : F} (h : veq y y') : fpow x y = fpow x y' := by
  rcases veq_cases h with rfl | ⟨h1, h2⟩
  · rfl
  · rw [fpow_zero_exp h1, fpow_zero_exp h2]

/-- A tame evaluation produces a definite value at the root. -/
theorem good_definite {t : Expr} {vals : Bindings} (h : GoodEval t vals) :
    definiteB (evaluate t vals) = true := by
  induction h with
  | const v vals hv => exact hv
  | var n vals hv => exact hv
  | sum a b vals ha hb iha ihb => exact fadd_definite iha ihb
  | product a b vals ha hb iha ihb => exact fmul_definite iha ihb
  | power b e vals hb he hnz hd ihb ihe => exact hd

/-- The constant one is not an IEEE zero. -/
theorem isZeroF_one : isZeroF (F.fin 1) = false := by decide

/-- C1 amended: simplify soundness on the tame evaluation domain: for
every tree built only from Sum, Product, Power, Constant and Variable
and every binding context under which evaluation is tame (`GoodEval`:
every leaf and every intermediate value is finite and exactly tracked,
and every `power` node has a nonzero base and a finite value), the
simplified tree evaluates to the same value as the original up to the
sign of zero — the model computes exactly, so this is equality "within
floating-point tolerance". Unrestricted, the claim is false: see the
counterexample `Power(Constant(0), Constant(-1))`. -/
theorem C1_simplify_sound (t : Expr) (vals : Bindings) (h : GoodEval t vals) :
    veq (evaluate (simplify t) vals) (evaluate t vals) := by
  induction h with
  | const v vals hv => exact veq_refl _
  | var n vals hv => exact veq_refl _
  | sum a b vals ha hb iha ihb =>
    have hda := good_definite ha
    have hdb := good_definite hb
    have hda' : definiteB (evaluate (simplify a) vals) = true := by
      rw [veq_definiteB iha]
      exact hda
    have hdb' : definiteB (evaluate (simplify b) vals) = true := by
      rw [veq_definiteB ihb]
      exact hdb
    show veq (evaluate (simplifySum (simplify a) (simplify b)) vals)
      (fadd (evaluate a vals) (evaluate b vals))
    unfold simplifySum
    split_ifs with h1 h2
    · rcases (constEq_zero_iff _).mp h1 with ⟨v, hv, hvz⟩
      rw [hv] at iha
      have hza : isZeroF (evaluate a vals) = true := veq_zero iha hvz
      exact veq_trans ihb (veq_symm (fadd_zero_left hza hdb))
    · rcases (constEq_zero_iff _).mp h2 with ⟨v, hv, hvz⟩
      rw [hv] at ihb
      have hzb : isZeroF (evaluate b vals) = true := veq_zero ihb hvz
      exact veq_trans iha (veq_symm (fadd_zero_right hzb hda))
    · split
      · rename_i av bv hsa hsb
        rw [hsa] at iha hda'
        rw [hsb] at ihb hdb'
        exact fadd_congr hda' hdb' hda hdb iha ihb
      · exact fadd_congr hda' hdb' hda hdb iha ihb
  | product a b vals ha hb iha ihb =>
    have hda := good_definite ha
    have hdb := good_definite hb
    have hda' : definiteB (evaluate (simplify a) vals) = true := by
      rw [veq_definiteB iha]
      exact hda
    have hdb' : definiteB (evaluate (simplify b) vals) = true := by
      rw [veq_definiteB ihb]
      exact hdb
    show veq (evaluate (simplifyProduct (simplify a) (simplify b)) vals)
      (fmul (evaluate a vals) (evaluate b vals))
    unfold simplifyProduct
    split_ifs with h1 h2 h3 h4
    · rcases (constEq_zero_iff _).mp h1 with ⟨v, hv, hvz⟩
      rw [hv] at iha
      have hza : isZeroF (evaluate a vals) = true := veq_zero iha hvz
      have hz1 : isZeroF (evaluate (simplify a) vals) = true := by
        rw [hv]
        exact hvz
      exact zeros_veq hz1 (fmul_zero_left hza hdb)
    · rcases (constEq_zero_iff _).mp h2 with ⟨v, hv, hvz⟩
      rw [hv] at ihb
      have hzb : isZeroF (evaluate b vals) = true := veq_zero ihb hvz
      have hz1 : isZeroF (evaluate (simplify b) vals) = true := by
        rw [hv]
        exact hvz
      exact zeros_veq hz1 (fmul_zero_right hzb hda)
    · have hv := (constEq_one_iff _).mp h3
      rw [hv] at iha
      have h1a : evaluate a vals = F.fin 1 := (veq_nonzero_eq isZeroF_one iha).symm
      rw [h1a, fmul_one_left hdb]
      exact ihb
    · have hv := (constEq_one_iff _).mp h4
      rw [hv] at ihb
      have h1b : evaluate b vals = F.fin 1 := (veq_nonzero_eq isZeroF_one ihb).symm
      rw [h1b, fmul_one_right hda]
      exact iha
    · split
      · rename_i av bv hsa hsb
        rw [hsa] at iha hda'
        rw [hsb] at ihb hdb'
        exact fmul_congr hda' hdb' hda hdb iha ihb
      · exact fmul_congr hda' hdb' hda hdb iha ihb
  | power b e vals hgb hge hnz hdp ihb ihe =>
    have hdb := good_definite hgb
    have hde := good_definite hge
    have hsz : isZeroF (evaluate (simplify b) vals) = false := by
      by_contra hcon
      rw [Bool.not_eq_false] at hcon
      simp [veq_zero ihb hcon] at hnz
    have HB : evaluate (simplify b) vals = evaluate b vals := veq_nonzero_eq hsz ihb
    show veq (evaluate (simplifyPower (simplify b) (simplify e)) vals)
      (fpow (evaluate b vals) (evaluate e vals))
    unfold simplifyPower
    split_ifs with h1 h2 h3
    · rcases (constEq_zero_iff _).mp h1 with ⟨v, hv, hvz⟩
      rw [hv] at ihe
      have hze : isZeroF (evaluate e vals) = true := veq_zero ihe hvz
      rw [fpow_zero_exp hze]
      exact veq_refl _
    · have hv := (constEq_one_iff _).mp h2
      rw [hv] at ihe
      have h1e : evaluate e vals = F.fin 1 := (veq_nonzero_eq isZeroF_one ihe).symm
      rw [h1e, fpow_one_exp]
      exact ihb
    · rw [Bool.or_eq_true] at h3
      rcases h3 with hb0 | hb1
      · rcases (constEq_zero_iff _).mp hb0 with ⟨v, hv, hvz⟩
        have hf : isZeroF v = false := by
          have h' := hsz
          rw [hv] at h'
          exact h'
        rw [hvz] at hf
        exact Bool.noConfusion hf
      · have hv := (constEq_one_iff _).mp hb1
        have h1b : evaluate b vals = F.fin 1 := by
          rw [← HB, hv]
          rfl
        rw [hv, h1b, fpow_one_base]
        exact veq_refl _
    · split
      · rename_i bv ev hsb hse
        have hez : isZeroF ev = false := by
          by_contra hcon
          rw [Bool.not_eq_false] at hcon
          exact absurd (by rw [hse]; exact (constEq_zero_iff _).mpr ⟨ev, rfl, hcon⟩) h1
        rw [hsb] at HB
        have hbv : bv = evaluate b vals := HB
        rw [hse] at ihe
        have hev : ev = evaluate e vals := veq_nonzero_eq hez ihe
        show veq (fpow bv ev) (fpow (evaluate b vals) (evaluate e vals))
        rw [hbv, hev]
        exact veq_refl _
      · show veq (fpow (evaluate (simplify b) vals) (evaluate (simplify e) vals))
          (fpow (evaluate b vals) (evaluate e vals))
        rw [HB, fpow_congr_exp ihe]
        exact veq_refl _

/-- C1 counterexample: the claim fails as stated. At
`T = Power(Constant(0), Constant(-1))` and the empty binding context the
simplifier's zero-base short-circuit returns `Constant(0)`, which
evaluates to `0`, while the original tree evaluates to `+Inf`
(`math.Pow(0, -1) = +Inf`) — the two differ by more than any
floating-point tolerance. -/
theorem C1_simplify_sound_counterexample :
    evaluate (simplify (Expr.power (Expr.const (F.fin 0)) (Expr.const (F.fin (-1))))) [] =
      F.fin 0 ∧
    evaluate (Expr.power (Expr.const (F.fin 0)) (Expr.const (F.fin (-1)))) [] = F.inf ∧
    ¬ veq (F.fin 0) F.inf :=
  ⟨by decide, by decide, by decide⟩

/-- Witness for the amended C1 at `Sum(Constant(0), Variable("x"))` with
the binding `x = 5`. -/
theorem C1_simplify_sound_witness :
    GoodEval (Expr.sum (Expr.const (F.fin 0)) (Expr.var "x")) [("x", F.fin 5)] ∧
    veq
      (evaluate (simplify (Expr.sum (Expr.const (F.fin 0)) (Expr.var "x"))) [("x", F.fin 5)])
      (evaluate (Expr.sum (Expr.const (F.fin 0)) (Expr.var "x")) [("x", F.fin 5)]) :=
  ⟨GoodEval.sum _ _ _ (GoodEval.const _ _ (by decide)) (GoodEval.var _ _ (by decide)),
   C1_simplify_sound (Expr.sum (Expr.const (F.fin 0)) (Expr.var "x")) [("x", F.fin 5)]
     (GoodEval.sum _ _ _ (GoodEval.const _ _ (by decide)) (GoodEval.var _ _ (by decide)))⟩

end Symbolic









